import Mathlib

/-!
Shallow embedding of the mail-analyzer email content extraction engine
(package email, file email.go, plus the mbox processing loop in main).

Go strings are modelled as lists of characters (Str).  The three regular
expressions used by extractBodyAndURLs are modelled as explicit scanners
with the leftmost-first matching semantics of the Go regexp package:

  hrefRegex : href\s*=\s*["?](https?://[^"]+)["?]   (quote class is " or the apostrophe)
  urlRegex  : https?://[^\s"<>]*[^\s"<>,.?!;)]
  tagRegex  : <.*?>   (dot does not match a newline)

External collaborators (go-message header parsing, mime.ParseMediaType,
multipart framing, the golang.org/x/text decoders, the go-mbox reader and
the LLM analyzer) are modelled by their outcomes: header parses are Option
values, body reads carry a success flag, the three Japanese decoders are
parameters of type Str to Option Str collected in a Decoders record.
-/

namespace MailAnalyzer

abbrev Str := List Char

/-- Character class of the Go regexp escape for whitespace: tab, newline,
form feed, carriage return and space. -/
def isWS (c : Char) : Bool :=
  c = ' ' || c = '\t' || c = '\n' || c = '\x0c' || c = '\r'

/-- Characters allowed in the body of a free-text URL match: the negated
class excluding whitespace, double quote and angle brackets. -/
def urlBodyChar (c : Char) : Bool :=
  !(isWS c || c = '"' || c = '<' || c = '>')

/-- The cutset of strings.TrimRight in the final URL loop: . ? ! , ; ) -/
def trimPunctChar (c : Char) : Bool :=
  c = '.' || c = '?' || c = '!' || c = ',' || c = ';' || c = ')'

/-- strings.TrimRight with the punctuation cutset. -/
def trimRightPunct (s : Str) : Str :=
  (s.reverse.dropWhile trimPunctChar).reverse

/-- Whitespace as used by strings.TrimSpace (unicode.IsSpace on the
Latin-1 range). -/
def isGoSpace (c : Char) : Bool :=
  c = ' ' || c = '\t' || c = '\n' || c = '\u000b' || c = '\x0c' || c = '\r' ||
  c = '\u0085' || c = '\u00A0'

/-- strings.TrimSpace. -/
def trimSpace (s : Str) : Str :=
  ((s.dropWhile isGoSpace).reverse.dropWhile isGoSpace).reverse

/-- The optional-s scheme literal of both URL regexes: https?:// with the
greedy preference for the s branch. -/
def schemeSplit : Str → Option (Str × Str)
  | 'h' :: 't' :: 't' :: 'p' :: 's' :: ':' :: '/' :: '/' :: rest =>
      some ("https://".data, rest)
  | 'h' :: 't' :: 't' :: 'p' :: ':' :: '/' :: '/' :: rest =>
      some ("http://".data, rest)
  | _ => none

/-- One attempt of urlRegex at the start of s.  A greedy run of body
characters follows the scheme; backtracking over the final one-character
class amounts to dropping the trailing punctuation run, which must leave
the run nonempty.  Returns the match and the rest of the input. -/
def matchUrlAt (s : Str) : Option (Str × Str) :=
  match schemeSplit s with
  | none => none
  | some (sch, t) =>
      let run := t.takeWhile urlBodyChar
      let rest := t.dropWhile urlBodyChar
      let body := trimRightPunct run
      if body.isEmpty then none
      else some (sch ++ body, run.drop body.length ++ rest)

/-- FindAllString for urlRegex, by fuel-indexed scanning; a failed attempt
advances one character, a successful one resumes after the match. -/
def findUrlsAux : Nat → Str → List Str
  | 0, _ => []
  | _ + 1, [] => []
  | fuel + 1, c :: rest =>
      match matchUrlAt (c :: rest) with
      | some (m, r) => m :: findUrlsAux fuel r
      | none => findUrlsAux fuel rest

def findUrls (s : Str) : List Str := findUrlsAux s.length s

/-- First angle-bracket close reachable without crossing a newline; returns
the input after it.  Models the non-greedy dot of tagRegex. -/
def tagEnd : Str → Option Str
  | [] => none
  | c :: rest => if c = '>' then some rest
                 else if c = '\n' then none
                 else tagEnd rest

/-- ReplaceAllString of tagRegex with a single space, fuel-indexed. -/
def stripTagsAux : Nat → Str → Str
  | 0, s => s
  | _ + 1, [] => []
  | fuel + 1, c :: rest =>
      if c = '<' then
        match tagEnd rest with
        | some r => ' ' :: stripTagsAux fuel r
        | none => c :: stripTagsAux fuel rest
      else c :: stripTagsAux fuel rest

def stripTags (s : Str) : Str := stripTagsAux s.length s

/-- Splits off everything before the last apostrophe of the input:
some (t, r) means the input is t, then an apostrophe, then r, and r has no
apostrophe after the split point chosen as late as possible. -/
def splitLastApos : Str → Option (Str × Str)
  | [] => none
  | c :: rest =>
      match splitLastApos rest with
      | some (t, r) => some (c :: t, r)
      | none => if c = '\'' then some (([] : Str), rest) else none

/-- One attempt of hrefRegex at the start of s.  The literal href, greedy
whitespace, an equals sign, greedy whitespace, an opening quote, the
scheme, then a greedy run of non-double-quote characters closed by a
double quote or, backtracking, by the last interior apostrophe.  Returns
the captured group and the rest of the input after the whole match.
When the post-run remainder is nonempty its head is necessarily the double
quote the run stopped at, so the cons arm below is that closing quote. -/
def matchHrefAt (s : Str) : Option (Str × Str) :=
  if s.take 4 = "href".data then
    match (s.drop 4).dropWhile isWS with
    | c0 :: s2 =>
        if c0 = '=' then
          match s2.dropWhile isWS with
          | q :: s4 =>
              if q = '"' || q = '\'' then
                match schemeSplit s4 with
                | some (sch, t) =>
                    let run := t.takeWhile (fun c => !(c = '"'))
                    let rest := t.dropWhile (fun c => !(c = '"'))
                    match rest with
                    | _ :: tail =>
                        if run.isEmpty then none else some (sch ++ run, tail)
                    | [] =>
                        match splitLastApos run with
                        | some (t2, r) =>
                            if t2.isEmpty then none else some (sch ++ t2, r)
                        | none => none
                | none => none
              else none
          | [] => none
        else none
    | [] => none
  else none

/-- FindAllStringSubmatch for hrefRegex, collecting the captured group. -/
def findHrefAux : Nat → Str → List Str
  | 0, _ => []
  | _ + 1, [] => []
  | fuel + 1, c :: rest =>
      match matchHrefAt (c :: rest) with
      | some (cap, r) => cap :: findHrefAux fuel r
      | none => findHrefAux fuel rest

def findHrefCaptures (s : Str) : List Str := findHrefAux s.length s

/-- strings.ToLower restricted to the ASCII letters, which is all the
charset switch compares against. -/
def lowerChar (c : Char) : Char :=
  if 'A' ≤ c && c ≤ 'Z' then Char.ofNat (c.toNat + 32) else c

def toLowerStr (s : Str) : Str := s.map lowerChar

/-- The two error constructions of decodeCharset: the default branch of the
switch, and a failing transform.Bytes call. -/
inductive DecodeErr where
  | unsupported : DecodeErr
  | decodeFailed : DecodeErr
deriving DecidableEq

/-- The three decoders from golang.org/x/text/encoding/japanese, external
to this repository; none models a mid-stream transform failure. -/
structure Decoders where
  iso2022jp : Str → Option Str
  shiftJIS : Str → Option Str
  eucJP : Str → Option Str

def runDecoder (d : Str → Option Str) (content : Str) : Except DecodeErr Str :=
  match d content with
  | some out => .ok out
  | none => .error .decodeFailed

/-- decodeCharset from email.go: lower-case the label, dispatch on the
fixed table, pass utf-8 through, reject unknown labels. -/
def decodeCharset (D : Decoders) (content : Str) (charset : Str) : Except DecodeErr Str :=
  let c := toLowerStr charset
  if c = "iso-2022-jp".data then runDecoder D.iso2022jp content
  else if c = "shift_jis".data || c = "shift-jis".data then runDecoder D.shiftJIS content
  else if c = "euc-jp".data || c = "euc_jp".data then runDecoder D.eucJP content
  else if c = "utf-8".data then .ok content
  else .error .unsupported

/-- The charset handling at both call sites of decodeCharset: only invoked
for a nonempty label, and a failed decode keeps the original bytes. -/
def applyCharset (D : Decoders) (content : Str) (charset : Str) : Str :=
  if charset = [] then content
  else
    match decodeCharset D content charset with
    | .ok decoded => decoded
    | .error _ => content

/-- The final loop of extractBodyAndURLs: trim trailing punctuation, skip
entries already seen, append first occurrences in order. -/
def dedupLoop (seen : List Str) (acc : List Str) : List Str → List Str
  | [] => acc
  | u :: rest =>
      if trimRightPunct u ∈ seen then dedupLoop seen acc rest
      else dedupLoop (trimRightPunct u :: seen) (acc ++ [trimRightPunct u]) rest

def finalizeUrls (urls : List Str) : List Str := dedupLoop [] [] urls

/-- Keep the first occurrence of every element, a fuel-indexed reference
form of first-seen-wins deduplication. -/
def dedupFirstAux : Nat → List Str → List Str
  | 0, _ => []
  | _ + 1, [] => []
  | fuel + 1, u :: rest =>
      u :: dedupFirstAux fuel (rest.filter (fun x => decide (x ≠ u)))

def dedupFirst (l : List Str) : List Str := dedupFirstAux l.length l

/-- Go map lookup on a parameter list, empty string when absent. -/
def lookupParam (params : List (Str × Str)) (k : Str) : Str :=
  match params.find? (fun p => p.1 == k) with
  | some p => p.2
  | none => []

def isTextType (mt : Str) : Bool :=
  mt = "text/html".data || mt = "text/plain".data

/-- The shared leaf handling: collect href captures from the raw text,
strip tags when the part is HTML, collect free-text matches from the
possibly stripped text; returns the accumulated body text and the URL
candidates in the order the code appends them. -/
def processTextPart (mt : Str) (text : Str) : Str × List Str :=
  let hrefs := findHrefCaptures text
  let t := if mt = "text/html".data then stripTags text else text
  (t, hrefs ++ findUrls t)

/-- One part as delivered by the multipart reader together with the
outcomes of the external calls made on it: mime.ParseMediaType of its
Content-Type header, and io.ReadAll of its body. -/
structure RawPart where
  ctParse : Option (Str × List (Str × Str))
  content : Option Str
deriving DecidableEq

/-- One step of the NextPart loop: either a read error (logged, skipped)
or a delivered part. -/
inductive PartItem where
  | readFail : PartItem
  | part : RawPart → PartItem
deriving DecidableEq

/-- A MIME entity as seen through the external go-message header parser:
the ContentType outcome, the bytes io.ReadAll yields for the body with its
success flag, and the sequence the multipart reader would yield when the
entity is read as multipart. -/
structure Entity where
  contentType : Option (Str × List (Str × Str))
  bodyContent : Str
  bodyReadOk : Bool
  parts : List PartItem
deriving DecidableEq

/-- The multipart branch of extractBodyAndURLs: iterate the parts, skip
read failures, unparsable content types and unreadable bodies, decode the
declared charset with pass-through on failure, and process only text/html
and text/plain parts, joining their texts with newlines. -/
def processParts (D : Decoders) : List PartItem → Str × List Str
  | [] => ([], [])
  | .readFail :: rest => processParts D rest
  | .part p :: rest =>
      match p.ctParse with
      | none => processParts D rest
      | some (pmt, pparams) =>
          match p.content with
          | none => processParts D rest
          | some content =>
              let decoded := applyCharset D content (lookupParam pparams "charset".data)
              if isTextType pmt then
                ((processTextPart pmt decoded).1 ++ '\n' :: (processParts D rest).1,
                 (processTextPart pmt decoded).2 ++ (processParts D rest).2)
              else processParts D rest

/-- extractBodyAndURLs before the final dedup and trim: the top-level
dispatch on the content type.  A failed ContentType read falls back to
text/plain with no parameters; multipart without a boundary takes the
whole body as opaque text ignoring read errors; a multipart with a
boundary walks the parts; a text/plain or text/html leaf requires a
successful body read, decodes the charset and processes the text; any
other media type contributes nothing. -/
def extractRaw (D : Decoders) (e : Entity) : Except Unit (Str × List Str) :=
  let ct := e.contentType.getD ("text/plain".data, [])
  let mediaType := ct.1
  let params := ct.2
  if ("multipart/".data).isPrefixOf mediaType then
    if lookupParam params "boundary".data = [] then
      .ok (e.bodyContent, [])
    else
      .ok (processParts D e.parts)
  else if mediaType = "text/plain".data || mediaType = "text/html".data then
    if e.bodyReadOk then
      let content := applyCharset D e.bodyContent (lookupParam params "charset".data)
      .ok (processTextPart mediaType content)
    else
      .error ()
  else
    .ok ([], [])

/-- extractBodyAndURLs: the dispatch above followed by the dedup loop on
the URLs and a whitespace trim on the aggregate body. -/
def extractBodyAndURLs (D : Decoders) (e : Entity) : Except Unit (Str × List Str) :=
  match extractRaw D e with
  | .error er => .error er
  | .ok (b, us) => .ok (trimSpace b, finalizeUrls us)

/-- strings.Trim cutset for the Message-ID field: angle brackets, space. -/
def msgIdTrimChar (c : Char) : Bool := c = '<' || c = '>' || c = ' '

def trimMsgId (s : Str) : Str :=
  ((s.dropWhile msgIdTrimChar).reverse.dropWhile msgIdTrimChar).reverse

/-- A raw message as seen through the external readers: the outcome of
message.Read, and the outcomes of the four header field accessors, whose
Go zero values stand in on error. -/
structure RawMessage where
  entity : Option Entity
  fromAddrs : Except Unit (List Str)
  toAddrs : Except Unit (List Str)
  subject : Except Unit Str
  messageID : Except Unit Str

structure ParsedEmail where
  messageID : Str
  fromAddrs : List Str
  toAddrs : List Str
  subject : Str
  body : Str
  urls : List Str
deriving DecidableEq

/-- Parse from email.go: fail when the entity cannot be read, discard the
errors of the header accessors, fail when body extraction fails, and trim
the Message-ID. -/
def Parse (D : Decoders) (m : RawMessage) : Except Unit ParsedEmail :=
  match m.entity with
  | none => .error ()
  | some e =>
      match extractBodyAndURLs D e with
      | .error _ => .error ()
      | .ok (body, urls) =>
          .ok { messageID := trimMsgId (m.messageID.toOption.getD [])
                fromAddrs := m.fromAddrs.toOption.getD []
                toAddrs := m.toAddrs.toOption.getD []
                subject := m.subject.toOption.getD []
                body := body
                urls := urls }

/-- One step of the mbox NextMessage loop: a read error or a message. -/
inductive MboxItem where
  | readFail : MboxItem
  | msg : RawMessage → MboxItem

/-- The per-message record assembled by main, with the judgment produced
by the external analyzer. -/
structure AnalysisResult (J : Type) where
  messageID : Str
  subject : Str
  fromAddrs : List Str
  toAddrs : List Str
  judgment : J

/-- The processing loop of main in mbox mode: skip unreadable messages,
skip messages whose Parse fails, skip messages whose analysis fails, and
collect a record for every message that survives all three. -/
def processMbox (D : Decoders) (analyze : ParsedEmail → Except Unit J) :
    List MboxItem → List (AnalysisResult J)
  | [] => []
  | .readFail :: rest => processMbox D analyze rest
  | .msg m :: rest =>
      match Parse D m with
      | .error _ => processMbox D analyze rest
      | .ok pe =>
          match analyze pe with
          | .error _ => processMbox D analyze rest
          | .ok j =>
              { messageID := pe.messageID
                subject := pe.subject
                fromAddrs := pe.fromAddrs
                toAddrs := pe.toAddrs
                judgment := j } :: processMbox D analyze rest

/-- True when the text still contains a tag span: an opening angle bracket
with a closing one reachable without crossing a newline. -/
def hasTagAux : Str → Bool
  | [] => false
  | c :: rest => (c = '<' && (tagEnd rest).isSome) || hasTagAux rest

/-- Collapse every nonempty whitespace run into a single space. -/
def squeezeWs : Str → Str
  | [] => []
  | c :: rest =>
      let r := squeezeWs rest
      if isGoSpace c then
        match r with
        | ' ' :: _ => r
        | _ => ' ' :: r
      else c :: r

/-- Whitespace normalization used to compare body texts: collapse runs and
trim the ends. -/
def collapseWs (s : Str) : Str := trimSpace (squeezeWs s)

/-- The labels the decodeCharset switch accepts after lower-casing. -/
def supportedLabel (charset : Str) : Bool :=
  let c := toLowerStr charset
  c = "iso-2022-jp".data || c = "shift_jis".data || c = "shift-jis".data ||
  c = "euc-jp".data || c = "euc_jp".data || c = "utf-8".data

/-- The one condition under which extractBodyAndURLs returns an error: a
non-multipart text/plain or text/html entity whose body read fails. -/
def leafReadFailed (e : Entity) : Bool :=
  let ct := e.contentType.getD ("text/plain".data, [])
  !(("multipart/".data).isPrefixOf ct.1) &&
  (ct.1 = "text/plain".data || ct.1 = "text/html".data) &&
  !e.bodyReadOk

/-- Multipart children the walker actually processes: parts whose media
type parsed and is text/html or text/plain. -/
def isTextItem : PartItem → Bool
  | .readFail => false
  | .part p =>
      match p.ctParse with
      | some (mt, _) => isTextType mt
      | none => false

/-- The URL harvest of one unit of text, as the claims describe it: href
captures from the raw text, free-text matches from the possibly
tag-stripped text, then trimming and deduplication. -/
def harvestText (text : Str) (isHtml : Bool) : List Str :=
  finalizeUrls (findHrefCaptures text ++ findUrls (if isHtml then stripTags text else text))

/-- Re-running the harvest on an already extracted URL list: each entry is
treated as one unit of plain text and the results are merged and
deduplicated again. -/
def harvestList (l : List Str) : List Str :=
  finalizeUrls (l.flatMap fun u => findHrefCaptures u ++ findUrls u)

/-- A free-text shaped URL: scheme-prefixed with at least one character
after the scheme, no whitespace, double-quote, angle-bracket or apostrophe
characters, and no trailing punctuation to trim. -/
def CleanUrl (u : Str) : Prop :=
  ((("http://".data).isPrefixOf u = true ∧ 8 ≤ u.length) ∨
   (("https://".data).isPrefixOf u = true ∧ 9 ≤ u.length)) ∧
  (∀ c ∈ u, urlBodyChar c = true ∧ c ≠ '\'') ∧
  trimRightPunct u = u

instance (u : Str) : Decidable (CleanUrl u) := by
  unfold CleanUrl; infer_instance

/-- Concrete decoders for witnesses: every decode attempt fails, standing
for transform failures. -/
def failingDecoders : Decoders :=
  { iso2022jp := fun _ => none, shiftJIS := fun _ => none, eucJP := fun _ => none }

/-- The free-text example of the spec, as a text/plain message. -/
def freeTextEntity : Entity :=
  { contentType := some ("text/plain".data, [])
    bodyContent := "Check this out: http://example.com/page, or this one: http://google.com).".data
    bodyReadOk := true
    parts := [] }

/-- The HTML example of the spec, as a text/html message. -/
def htmlEntity : Entity :=
  { contentType := some ("text/html".data, [])
    bodyContent := "<h1>Hello</h1><p>This is a <a href=\"https://example.org\">link</a>.</p>".data
    bodyReadOk := true
    parts := [] }

/-- A multipart/mixed message whose single child is itself a
multipart/alternative container holding a text/plain and a text/html leaf;
the child arrives from the multipart reader as one part whose body is the
raw nested payload. -/
def nestedMultipartEntity : Entity :=
  { contentType := some ("multipart/mixed".data, [("boundary".data, "outer".data)])
    bodyContent := []
    bodyReadOk := true
    parts := [.part
      { ctParse := some ("multipart/alternative".data, [("boundary".data, "inner".data)])
        content := some ("--inner\r\nContent-Type: text/plain\r\n\r\nHello plain http://a.example/\r\n--inner\r\nContent-Type: text/html\r\n\r\n<a href=\"http://b.example/\">x</a>\r\n--inner--\r\n".data) }] }

/-- A multipart message with two text children sharing a URL up to
trailing punctuation, for the dedup witness. -/
def twoPartEntity : Entity :=
  { contentType := some ("multipart/mixed".data, [("boundary".data, "b1".data)])
    bodyContent := []
    bodyReadOk := true
    parts :=
      [.part { ctParse := some ("text/plain".data, [])
               content := some ("plain part http://dup.example/x.".data) },
       .part { ctParse := some ("text/html".data, [])
               content := some ("<p>html <a href='http://dup.example/x'>l</a></p>".data) }] }

/-- A declared multipart message with no boundary parameter whose payload
holds markup and URLs, and whose body read even failed part-way. -/
def noBoundaryEntity : Entity :=
  { contentType := some ("multipart/mixed".data, [("charset".data, "shift_jis".data)])
    bodyContent := "  raw <a href=\"http://x.org/\">opaque</a> http://y.org payload  ".data
    bodyReadOk := false
    parts := [.part { ctParse := some ("text/plain".data, []), content := some ("http://z.org".data) }] }

/-- First message of the three-message container example. -/
def msgW1 : RawMessage :=
  { entity := some freeTextEntity
    fromAddrs := .ok ["alice@example.com".data]
    toAddrs := .ok ["bob@example.com".data]
    subject := .ok "subject one".data
    messageID := .ok "<id1@example.com>".data }

/-- Second message of the container example: its header block cannot be
read as a MIME entity at all. -/
def msgWC : RawMessage :=
  { entity := none
    fromAddrs := .error ()
    toAddrs := .error ()
    subject := .error ()
    messageID := .error () }

/-- Third message of the three-message container example. -/
def msgW3 : RawMessage :=
  { entity := some htmlEntity
    fromAddrs := .ok ["carol@example.com".data]
    toAddrs := .ok ["dave@example.com".data]
    subject := .ok "subject three".data
    messageID := .ok "<id3@example.com>".data }

/-- An analyzer that always succeeds, reporting the message id. -/
def analyzeW : ParsedEmail → Except Unit Str := fun pe => .ok pe.messageID

/-- The parse of the first container message. -/
def parsedW1 : ParsedEmail :=
  { messageID := "id1@example.com".data
    fromAddrs := ["alice@example.com".data]
    toAddrs := ["bob@example.com".data]
    subject := "subject one".data
    body := "Check this out: http://example.com/page, or this one: http://google.com).".data
    urls := ["http://example.com/page".data, "http://google.com".data] }

/-- The parse of the third container message. -/
def parsedW3 : ParsedEmail :=
  { messageID := "id3@example.com".data
    fromAddrs := ["carol@example.com".data]
    toAddrs := ["dave@example.com".data]
    subject := "subject three".data
    body := "Hello  This is a  link .".data
    urls := ["https://example.org".data] }

/-- A message whose entity reads fine but whose four header accessors all
fail. -/
def headerlessMsg : RawMessage :=
  { entity := some freeTextEntity
    fromAddrs := .error ()
    toAddrs := .error ()
    subject := .error ()
    messageID := .error () }

/-- The parse of headerlessMsg: every header-derived field is empty. -/
def parsedHeaderless : ParsedEmail :=
  { messageID := []
    fromAddrs := []
    toAddrs := []
    subject := []
    body := "Check this out: http://example.com/page, or this one: http://google.com).".data
    urls := ["http://example.com/page".data, "http://google.com".data] }

/-! Helper lemmas: trimming and first-seen deduplication. -/

theorem dropWhile_idem (p : Char → Bool) : ∀ l : Str, (l.dropWhile p).dropWhile p = l.dropWhile p
  | [] => rfl
  | c :: rest => by
      by_cases h : p c
      · simp only [List.dropWhile_cons, h, if_true]
        exact dropWhile_idem p rest
      · simp [List.dropWhile_cons, h]

theorem trimRightPunct_idem (s : Str) : trimRightPunct (trimRightPunct s) = trimRightPunct s := by
  unfold trimRightPunct
  rw [List.reverse_reverse, dropWhile_idem]

theorem dedupFirstAux_congr : ∀ (f1 f2 : Nat) (l : List Str), l.length ≤ f1 → l.length ≤ f2 →
    dedupFirstAux f1 l = dedupFirstAux f2 l := by
  intro f1
  induction f1 with
  | zero =>
      intro f2 l h1 _
      rw [Nat.le_zero] at h1
      rw [List.length_eq_zero] at h1
      subst h1
      cases f2 <;> rfl
  | succ f ih =>
      intro f2 l h1 h2
      cases l with
      | nil => cases f2 <;> rfl
      | cons u rest =>
          cases f2 with
          | zero => simp at h2
          | succ g =>
              simp only [dedupFirstAux, List.cons.injEq, true_and]
              exact ih g _
                (Nat.le_trans (List.length_filter_le _ _) (Nat.succ_le_succ_iff.mp h1))
                (Nat.le_trans (List.length_filter_le _ _) (Nat.succ_le_succ_iff.mp h2))

theorem dedupFirst_cons (u : Str) (rest : List Str) :
    dedupFirst (u :: rest) = u :: dedupFirst (rest.filter (fun x => decide (x ≠ u))) := by
  unfold dedupFirst
  simp only [List.length_cons, dedupFirstAux, List.cons.injEq, true_and]
  exact dedupFirstAux_congr _ _ _ (List.length_filter_le _ _) Nat.le.refl

theorem mem_dedupFirstAux : ∀ (fuel : Nat) (l : List Str) (x : Str),
    x ∈ dedupFirstAux fuel l → x ∈ l := by
  intro fuel
  induction fuel with
  | zero => intro l x h; simp [dedupFirstAux] at h
  | succ f ih =>
      intro l x h
      cases l with
      | nil => simp [dedupFirstAux] at h
      | cons u rest =>
          simp only [dedupFirstAux, List.mem_cons] at h ⊢
          rcases h with h | h
          · exact Or.inl h
          · exact Or.inr (List.mem_filter.mp (ih _ _ h)).1

theorem nodup_dedupFirstAux : ∀ (fuel : Nat) (l : List Str), (dedupFirstAux fuel l).Nodup := by
  intro fuel
  induction fuel with
  | zero => intro l; simp [dedupFirstAux]
  | succ f ih =>
      intro l
      cases l with
      | nil => simp [dedupFirstAux]
      | cons u rest =>
          simp only [dedupFirstAux, List.nodup_cons]
          refine ⟨fun hmem => ?_, ih _⟩
          have h2 := (List.mem_filter.mp (mem_dedupFirstAux _ _ _ hmem)).2
          simp at h2

theorem dedupFirstAux_of_nodup : ∀ (fuel : Nat) (l : List Str), l.length ≤ fuel → l.Nodup →
    dedupFirstAux fuel l = l := by
  intro fuel
  induction fuel with
  | zero =>
      intro l h _
      rw [Nat.le_zero] at h
      rw [List.length_eq_zero] at h
      subst h
      rfl
  | succ f ih =>
      intro l h hn
      cases l with
      | nil => rfl
      | cons u rest =>
          simp only [dedupFirstAux, List.cons.injEq, true_and]
          have hrest : rest.filter (fun x => decide (x ≠ u)) = rest := by
            apply List.filter_eq_self.mpr
            intro x hx
            simp only [decide_eq_true_eq]
            exact fun he => (List.nodup_cons.mp hn).1 (he ▸ hx)
          rw [hrest]
          exact ih _ (Nat.succ_le_succ_iff.mp h) (List.nodup_cons.mp hn).2

theorem dedupFirst_of_nodup {l : List Str} (h : l.Nodup) : dedupFirst l = l :=
  dedupFirstAux_of_nodup _ _ Nat.le.refl h

theorem dedupLoop_acc : ∀ (l seen acc : List Str), dedupLoop seen acc l = acc ++ dedupLoop seen [] l := by
  intro l
  induction l with
  | nil => intro seen acc; simp [dedupLoop]
  | cons u rest ih =>
      intro seen acc
      simp only [dedupLoop]
      by_cases h : trimRightPunct u ∈ seen
      · rw [if_pos h, if_pos h, ih]
      · rw [if_neg h, if_neg h, ih (trimRightPunct u :: seen) (acc ++ [trimRightPunct u]),
          ih (trimRightPunct u :: seen) ([] ++ [trimRightPunct u])]
        simp

theorem dedupLoop_eq : ∀ (l : List Str) (seen : List Str),
    dedupLoop seen [] l = dedupFirst ((l.map trimRightPunct).filter (fun x => decide (x ∉ seen))) := by
  intro l
  induction l with
  | nil => intro seen; rfl
  | cons u rest ih =>
      intro seen
      simp only [dedupLoop, List.map_cons, List.filter_cons]
      by_cases h : trimRightPunct u ∈ seen
      · rw [if_pos h]
        have hd : decide (trimRightPunct u ∉ seen) = false := by simp [h]
        rw [hd]
        simp only [Bool.false_eq_true, if_false]
        exact ih seen
      · rw [if_neg h]
        have hd : decide (trimRightPunct u ∉ seen) = true := by simp [h]
        rw [hd]
        simp only [if_true]
        rw [dedupLoop_acc, ih (trimRightPunct u :: seen), dedupFirst_cons]
        simp only [List.nil_append, List.singleton_append, List.cons.injEq, true_and]
        rw [List.filter_filter]
        apply congrArg
        apply List.filter_congr
        intro x _
        by_cases h1 : x = trimRightPunct u <;> by_cases h2 : x ∈ seen <;>
          simp [h1, h2, List.mem_cons]

theorem finalizeUrls_eq (urls : List Str) :
    finalizeUrls urls = dedupFirst (urls.map trimRightPunct) := by
  unfold finalizeUrls
  rw [dedupLoop_eq]
  apply congrArg
  apply List.filter_eq_self.mpr
  intro x _
  simp

theorem finalizeUrls_nodup (urls : List Str) : (finalizeUrls urls).Nodup := by
  rw [finalizeUrls_eq]
  exact nodup_dedupFirstAux _ _

theorem mem_finalizeUrls_trimmed {urls : List Str} {u : Str} (h : u ∈ finalizeUrls urls) :
    trimRightPunct u = u := by
  rw [finalizeUrls_eq] at h
  obtain ⟨v, _, rfl⟩ := List.mem_map.mp (mem_dedupFirstAux _ _ _ h)
  exact trimRightPunct_idem v

/-! Helper lemmas: tag stripping. -/

theorem tagEnd_length : ∀ {s r : Str}, tagEnd s = some r → r.length < s.length := by
  intro s
  induction s with
  | nil => intro r h; simp [tagEnd] at h
  | cons c rest ih =>
      intro r h
      simp only [tagEnd] at h
      by_cases h1 : c = '>'
      · rw [if_pos h1] at h
        obtain rfl := Option.some.inj h
        simp
      · rw [if_neg h1] at h
        by_cases h2 : c = '\n'
        · rw [if_pos h2] at h; exact absurd h (by simp)
        · rw [if_neg h2] at h
          simp only [List.length_cons]
          exact Nat.lt_succ_of_lt (ih h)

theorem tagEnd_stripTagsAux_none : ∀ (fuel : Nat) (s : Str), tagEnd s = none →
    tagEnd (stripTagsAux fuel s) = none := by
  intro fuel
  induction fuel with
  | zero => intro s h; exact h
  | succ f ih =>
      intro s h
      cases s with
      | nil => rfl
      | cons c rest =>
          simp only [tagEnd] at h
          by_cases h1 : c = '>'
          · rw [if_pos h1] at h; exact absurd h (by simp)
          · rw [if_neg h1] at h
            simp only [stripTagsAux]
            by_cases hlt : c = '<'
            · rw [if_pos hlt]
              have h2 : ¬ c = '\n' := by rw [hlt]; decide
              rw [if_neg h2] at h
              rw [h]
              simp only [tagEnd]
              rw [if_neg h1, if_neg h2]
              exact ih rest h
            · rw [if_neg hlt]
              simp only [tagEnd]
              rw [if_neg h1]
              by_cases h2 : c = '\n'
              · rw [if_pos h2]
              · rw [if_neg h2]
                rw [if_neg h2] at h
                exact ih rest h

theorem hasTag_stripTagsAux : ∀ (fuel : Nat) (s : Str), s.length ≤ fuel →
    hasTagAux (stripTagsAux fuel s) = false := by
  intro fuel
  induction fuel with
  | zero =>
      intro s h
      rw [Nat.le_zero] at h
      rw [List.length_eq_zero] at h
      subst h
      rfl
  | succ f ih =>
      intro s h
      cases s with
      | nil => rfl
      | cons c rest =>
          have hrest : rest.length ≤ f := by
            simpa [Nat.succ_le_succ_iff] using h
          simp only [stripTagsAux]
          by_cases hlt : c = '<'
          · rw [if_pos hlt]
            cases htag : tagEnd rest with
            | some r =>
                have hr : r.length ≤ f := Nat.le_trans (Nat.le_of_lt (tagEnd_length htag)) hrest
                simp [hasTagAux, ih r hr]
            | none =>
                simp only [hasTagAux]
                rw [ih rest hrest, tagEnd_stripTagsAux_none f rest htag]
                simp
          · rw [if_neg hlt]
            simp [hasTagAux, hlt, ih rest hrest]

/-! Helper lemmas: the multipart walker. -/

theorem processParts_filter (D : Decoders) : ∀ parts : List PartItem,
    processParts D (parts.filter isTextItem) = processParts D parts := by
  intro parts
  induction parts with
  | nil => rfl
  | cons pi rest ih =>
      cases pi with
      | readFail => simpa [List.filter_cons, isTextItem, processParts] using ih
      | part p =>
          cases hct : p.ctParse with
          | none => simpa [List.filter_cons, isTextItem, hct, processParts] using ih
          | some ctv =>
              obtain ⟨mt, pparams⟩ := ctv
              by_cases htext : isTextType mt
              · cases hc : p.content with
                | none =>
                    simp only [List.filter_cons, isTextItem, hct, htext, if_true,
                      processParts, hc]
                    exact ih
                | some content =>
                    simp only [List.filter_cons, isTextItem, hct, htext, if_true,
                      processParts, hc, ih]
              · simp only [List.filter_cons, isTextItem, hct, htext, if_false,
                  processParts, Bool.false_eq_true]
                cases hc : p.content with
                | none => exact ih
                | some content =>
                    simp only [htext, if_false, Bool.false_eq_true]
                    exact ih

theorem extractRaw_error_iff (D : Decoders) (e : Entity) :
    extractRaw D e = .error () ↔ leafReadFailed e = true := by
  unfold extractRaw leafReadFailed
  by_cases h1 : ("multipart/".data).isPrefixOf (e.contentType.getD ("text/plain".data, [])).1
  · by_cases h2 : lookupParam (e.contentType.getD ("text/plain".data, [])).2 "boundary".data = []
      <;> simp [h1, h2]
  · by_cases h3 : (e.contentType.getD ("text/plain".data, [])).1 = "text/plain".data ∨
        (e.contentType.getD ("text/plain".data, [])).1 = "text/html".data
    · by_cases h4 : e.bodyReadOk <;> simp [h1, h3, h4]
    · simp [h1, h3]

theorem extractBodyAndURLs_error_iff (D : Decoders) (e : Entity) :
    extractBodyAndURLs D e = .error () ↔ leafReadFailed e = true := by
  rw [← extractRaw_error_iff D e]
  unfold extractBodyAndURLs
  cases h : extractRaw D e with
  | error u => cases u; simp
  | ok v => obtain ⟨b, us⟩ := v; simp

/-! Helper lemmas: the harvest on free-text shaped URLs. -/

theorem matchHrefAt_none {s : Str} (hs : ∀ c ∈ s, ¬(c = '"' ∨ c = '\'')) :
    matchHrefAt s = none := by
  unfold matchHrefAt
  split
  · cases h5 : (s.drop 4).dropWhile isWS with
    | nil => simp
    | cons c0 s2 =>
        simp only [h5]
        by_cases hc0 : c0 = '='
        · rw [if_pos hc0]
          cases h6 : s2.dropWhile isWS with
          | nil => simp
          | cons q s4 =>
              simp only [h6]
              have hq : q ∈ s := by
                have q1 : q ∈ s2.dropWhile isWS := by rw [h6]; exact List.mem_cons_self q s4
                have q2 : q ∈ s2 := List.Sublist.mem q1 (List.dropWhile_sublist _)
                have q3 : q ∈ (s.drop 4).dropWhile isWS := by
                  rw [h5]; exact List.mem_cons_of_mem c0 q2
                have q4 : q ∈ s.drop 4 := List.Sublist.mem q3 (List.dropWhile_sublist _)
                exact List.Sublist.mem q4 (List.drop_sublist 4 s)
              have hnq : (q = '"' || q = '\'') ≠ true := by
                simpa using hs q hq
              rw [if_neg hnq]
        · rw [if_neg hc0]
  · rfl

theorem findHrefAux_nil : ∀ (s : Str) (fuel : Nat), (∀ c ∈ s, ¬(c = '"' ∨ c = '\'')) →
    findHrefAux fuel s = [] := by
  intro s
  induction s with
  | nil => intro fuel _; cases fuel <;> rfl
  | cons c rest ih =>
      intro fuel hs
      cases fuel with
      | zero => rfl
      | succ f =>
          simp only [findHrefAux, matchHrefAt_none hs]
          exact ih f fun x hx => hs x (List.mem_cons_of_mem _ hx)

theorem findHrefCaptures_nil {s : Str} (hs : ∀ c ∈ s, ¬(c = '"' ∨ c = '\'')) :
    findHrefCaptures s = [] := findHrefAux_nil s _ hs

theorem findUrlsAux_nilInput : ∀ fuel : Nat, findUrlsAux fuel [] = [] := by
  intro fuel; cases fuel <;> rfl

theorem matchUrlAt_whole {u sch t : Str} (hu : schemeSplit u = some (sch, t))
    (hbody : ∀ c ∈ t, urlBodyChar c = true) (hne : t ≠ [])
    (htrim : trimRightPunct t = t) : matchUrlAt u = some (u, []) := by
  have hrun : t.takeWhile urlBodyChar = t := List.takeWhile_eq_self_iff.mpr hbody
  have hrest : t.dropWhile urlBodyChar = [] := List.dropWhile_eq_nil_iff.mpr hbody
  have hemp : t.isEmpty = false := by cases t with
    | nil => exact absurd rfl hne
    | cons a b => rfl
  have hsch : u = sch ++ t := by
    unfold schemeSplit at hu
    split at hu
    · obtain ⟨h1, h2⟩ : "https://".data = sch ∧ _ = t := by simpa using hu
      subst h1; subst h2; rfl
    · obtain ⟨h1, h2⟩ : "http://".data = sch ∧ _ = t := by simpa using hu
      subst h1; subst h2; rfl
    · simp at hu
  unfold matchUrlAt
  rw [hu]
  simp only [hrun, hrest, htrim, hemp, Bool.false_eq_true, if_false,
    List.drop_length, List.append_nil, hsch]

theorem findUrls_of_matchWhole {u : Str} (hne : u ≠ []) (hm : matchUrlAt u = some (u, [])) :
    findUrls u = [u] := by
  cases u with
  | nil => exact absurd rfl hne
  | cons c rest =>
      show findUrlsAux (c :: rest).length (c :: rest) = _
      simp only [List.length_cons, findUrlsAux, hm, findUrlsAux_nilInput]

theorem trimRightPunct_append_right {pre t : Str} (hne : t ≠ [])
    (h : trimRightPunct (pre ++ t) = pre ++ t) : trimRightPunct t = t := by
  have h' : (pre ++ t).reverse.dropWhile trimPunctChar = (pre ++ t).reverse := by
    have := congrArg List.reverse h
    rwa [trimRightPunct, List.reverse_reverse] at this
  obtain ⟨c, rt, hct⟩ : ∃ c rt, t.reverse = c :: rt := by
    cases ht : t.reverse with
    | nil =>
        exfalso
        apply hne
        have := congrArg List.reverse ht
        simpa using this
    | cons c rt => exact ⟨c, rt, rfl⟩
  rw [List.reverse_append, hct, List.cons_append] at h'
  have hpc : trimPunctChar c = false := by
    by_contra hpc
    rw [List.dropWhile_cons, if_pos (by simpa using hpc)] at h'
    have hlen := (List.dropWhile_sublist (l := rt ++ pre.reverse) trimPunctChar).length_le
    rw [h'] at hlen
    simp at hlen
  unfold trimRightPunct
  rw [hct, List.dropWhile_cons, hpc]
  simp only [Bool.false_eq_true, if_false]
  rw [← hct, List.reverse_reverse]

theorem flatMap_singleton {l : List Str} {f : Str → List Str} (h : ∀ u ∈ l, f u = [u]) :
    l.flatMap f = l := by
  induction l with
  | nil => rfl
  | cons u rest ih =>
      rw [List.flatMap_cons, h u (List.mem_cons_self u rest),
        ih fun v hv => h v (List.mem_cons_of_mem _ hv)]
      rfl

theorem cleanUrl_harvest {u : Str} (hc : CleanUrl u) :
    findHrefCaptures u ++ findUrls u = [u] := by
  obtain ⟨hscheme, hchars, htrim⟩ := hc
  have hnoquote : ∀ c ∈ u, ¬(c = '"' ∨ c = '\'') := by
    intro c hcm hor
    rcases hor with rfl | rfl
    · have h1 := (hchars _ hcm).1
      simp [urlBodyChar, isWS] at h1
    · exact (hchars _ hcm).2 rfl
  have key : ∀ pre t : Str, u = pre ++ t → schemeSplit u = some (pre, t) → t ≠ [] →
      findHrefCaptures u ++ findUrls u = [u] := by
    intro pre t hu hsp htne
    have htchars : ∀ c ∈ t, urlBodyChar c = true := by
      intro c hcm
      exact (hchars c (hu ▸ List.mem_append_right pre hcm)).1
    have httrim : trimRightPunct t = t :=
      trimRightPunct_append_right htne (hu ▸ htrim)
    have hune : u ≠ [] := by
      intro h0
      rw [h0] at hsp
      exact absurd hsp (by simp [schemeSplit])
    rw [findHrefCaptures_nil hnoquote,
      findUrls_of_matchWhole hune (matchUrlAt_whole hsp htchars htne httrim)]
    rfl
  rcases hscheme with ⟨hpre, hlen⟩ | ⟨hpre, hlen⟩
  · obtain ⟨t, ht⟩ := List.isPrefixOf_iff_prefix.mp hpre
    have hu : u = "http://".data ++ t := ht.symm
    have htne : t ≠ [] := by
      intro h0
      rw [h0] at hu
      rw [hu] at hlen
      simp at hlen
    refine key _ t hu ?_ htne
    rw [hu]
    rfl
  · obtain ⟨t, ht⟩ := List.isPrefixOf_iff_prefix.mp hpre
    have hu : u = "https://".data ++ t := ht.symm
    have htne : t ≠ [] := by
      intro h0
      rw [h0] at hu
      rw [hu] at hlen
      simp at hlen
    refine key _ t hu ?_ htne
    rw [hu]
    rfl

/-! The claims. -/

/-- C2: charset normalization never raises an error that aborts message
processing: when the declared label, lower-cased, is not in the supported
table, or when the matched decoder fails mid-stream, the part keeps the
original bytes unchanged and processing continues. -/
theorem charset_fallback_passthrough (D : Decoders) (content charset : Str) :
    (supportedLabel charset = false → applyCharset D content charset = content) ∧
    (decodeCharset D content charset = .error .decodeFailed →
      applyCharset D content charset = content) := by
  constructor
  · intro hsup
    unfold applyCharset
    by_cases h0 : charset = []
    · rw [if_pos h0]
    · rw [if_neg h0]
      have herr : decodeCharset D content charset = .error .unsupported := by
        unfold supportedLabel at hsup
        unfold decodeCharset
        dsimp only at hsup ⊢
        split_ifs with i1 i2 i3 i4 <;> simp_all
      rw [herr]
  · intro hfail
    unfold applyCharset
    by_cases h0 : charset = []
    · rw [if_pos h0]
    · rw [if_neg h0, hfail]

theorem charset_fallback_passthrough_witness :
    supportedLabel "x-ebcdic".data = false ∧
    applyCharset failingDecoders "abc".data "x-ebcdic".data = "abc".data ∧
    applyCharset failingDecoders "abc".data "Shift_JIS".data = "abc".data :=
  ⟨rfl,
   (charset_fallback_passthrough failingDecoders "abc".data "x-ebcdic".data).1 rfl,
   (charset_fallback_passthrough failingDecoders "abc".data "Shift_JIS".data).2 rfl⟩

/-- C3: charset normalization with an empty declared label, or one that is
case-insensitively utf-8, returns the input bytes unchanged with no
validation. -/
theorem charset_utf8_identity (D : Decoders) (content charset : Str)
    (h : charset = [] ∨ toLowerStr charset = "utf-8".data) :
    applyCharset D content charset = content := by
  rcases h with h | h
  · unfold applyCharset; rw [if_pos h]
  · unfold applyCharset
    by_cases h0 : charset = []
    · rw [if_pos h0]
    · rw [if_neg h0]
      unfold decodeCharset
      rw [h]
      rfl

theorem charset_utf8_identity_witness :
    applyCharset failingDecoders "abc".data "UTF-8".data = "abc".data ∧
    applyCharset failingDecoders "xyz".data [] = "xyz".data :=
  ⟨charset_utf8_identity failingDecoders "abc".data "UTF-8".data (Or.inr rfl),
   charset_utf8_identity failingDecoders "xyz".data [] (Or.inl rfl)⟩

/-- C7: a declared multipart message with a missing or empty boundary
appends the whole payload to the body as opaque raw text, with no charset
conversion applied to it, no URL harvesting on it, and no error. -/
theorem multipart_noBoundary_fallback (D : Decoders) (e : Entity) (mt : Str)
    (params : List (Str × Str))
    (hct : e.contentType = some (mt, params))
    (hmp : ("multipart/".data).isPrefixOf mt = true)
    (hb : lookupParam params "boundary".data = []) :
    extractBodyAndURLs D e = .ok (trimSpace e.bodyContent, []) := by
  unfold extractBodyAndURLs extractRaw
  rw [hct]
  simp only [Option.getD_some]
  rw [if_pos hmp, if_pos hb]
  rfl

theorem multipart_noBoundary_fallback_witness :
    extractBodyAndURLs failingDecoders noBoundaryEntity =
      .ok ("raw <a href=\"http://x.org/\">opaque</a> http://y.org payload".data, []) := by
  rw [multipart_noBoundary_fallback failingDecoders noBoundaryEntity
    "multipart/mixed".data [("charset".data, "shift_jis".data)] rfl rfl rfl]
  rfl

/-- C8: every angle-bracket-delimited tag span of an HTML part is replaced
by a single space before free-text extraction and body accumulation — the
stripped text holds no tag span at all — and on the HTML example body the
extracted body text whitespace-normalizes to the expected sentence while
the URL list is exactly the href target. -/
theorem html_tag_stripping :
    (∀ s : Str, hasTagAux (stripTags s) = false) ∧
    extractBodyAndURLs failingDecoders htmlEntity =
      .ok ("Hello  This is a  link .".data, ["https://example.org".data]) ∧
    collapseWs "Hello  This is a  link .".data = "Hello This is a link .".data :=
  ⟨fun s => hasTag_stripTagsAux s.length s Nat.le.refl, rfl, rfl⟩

/-- C5: every URL reaching the final list, from either extraction pass, has
its trailing punctuation run stripped, and the free-text example yields
exactly the two expected URLs. -/
theorem trailing_punctuation_trim :
    (∀ (urls : List Str) (u : Str), u ∈ finalizeUrls urls → trimRightPunct u = u) ∧
    extractBodyAndURLs failingDecoders freeTextEntity =
      .ok ("Check this out: http://example.com/page, or this one: http://google.com).".data,
           ["http://example.com/page".data, "http://google.com".data]) :=
  ⟨fun _ _ hu => mem_finalizeUrls_trimmed hu, rfl⟩

theorem trailing_punctuation_trim_witness :
    trimRightPunct "http://google.com".data = "http://google.com".data :=
  trailing_punctuation_trim.1 ["http://google.com)".data] "http://google.com".data (by decide)

/-- C4: the final URL list of every successfully extracted message is the
first-seen-wins deduplication of the trimmed harvested candidates: no
duplicates, first occurrence keeps its position, and entries are exactly
the trimmed strings with no further canonicalization. -/
theorem urls_nodup_first_seen (D : Decoders) (e : Entity) (b : Str) (us : List Str)
    (h : extractBodyAndURLs D e = .ok (b, us)) :
    ∃ b0 raw, extractRaw D e = .ok (b0, raw) ∧
      us = dedupFirst (raw.map trimRightPunct) ∧ us.Nodup := by
  unfold extractBodyAndURLs at h
  cases hr : extractRaw D e with
  | error u => rw [hr] at h; exact absurd h (by simp)
  | ok v =>
      obtain ⟨b0, raw⟩ := v
      rw [hr] at h
      have h2 : (trimSpace b0, finalizeUrls raw) = (b, us) := by
        simpa using h
      have hus : finalizeUrls raw = us := congrArg Prod.snd h2
      refine ⟨b0, raw, rfl, ?_, ?_⟩
      · rw [← hus, finalizeUrls_eq]
      · rw [← hus]
        exact finalizeUrls_nodup raw

theorem urls_nodup_first_seen_witness :
    ∃ b0 raw, extractRaw failingDecoders twoPartEntity = .ok (b0, raw) ∧
      ["http://dup.example/x".data] = dedupFirst (raw.map trimRightPunct) ∧
      (["http://dup.example/x".data] : List Str).Nodup :=
  urls_nodup_first_seen failingDecoders twoPartEntity
    "plain part http://dup.example/x.\n html  l".data
    ["http://dup.example/x".data] rfl

/-- C1, counterexample: a multipart/mixed message whose only child is a
multipart/alternative container with a text/plain and a text/html leaf
yields an empty body and an empty URL list — the nested leaves contribute
nothing, against the claimed recursive descent. -/
theorem nested_multipart_counterexample :
    extractBodyAndURLs failingDecoders nestedMultipartEntity = .ok ([], []) := rfl

/-- C1, amended: the walker is flat, not recursive: for a multipart
message with a boundary, children whose parsed media type is not
text/plain or text/html — nested multipart containers included — are
skipped entirely, so the result equals that of the message with only its
direct text children. -/
theorem multipart_only_direct_text_children (D : Decoders) (e : Entity)
    (mt : Str) (params : List (Str × Str))
    (hct : e.contentType = some (mt, params))
    (hmp : ("multipart/".data).isPrefixOf mt = true)
    (hb : lookupParam params "boundary".data ≠ []) :
    extractBodyAndURLs D e =
      extractBodyAndURLs D { e with parts := e.parts.filter isTextItem } := by
  unfold extractBodyAndURLs extractRaw
  simp only [hct, Option.getD_some]
  rw [if_pos hmp, if_pos hmp, if_neg hb, if_neg hb]
  simp only [processParts_filter]

theorem multipart_only_direct_text_children_witness :
    extractBodyAndURLs failingDecoders nestedMultipartEntity =
      extractBodyAndURLs failingDecoders
        { nestedMultipartEntity with parts := nestedMultipartEntity.parts.filter isTextItem } :=
  multipart_only_direct_text_children failingDecoders nestedMultipartEntity
    "multipart/mixed".data [("boundary".data, "outer".data)] rfl rfl (by decide)

/-- C6, counterexample: the harvest is not idempotent on its own output:
harvesting the text with an href attribute whose target contains a space
yields a two-element list, and re-running the harvest on that list shrinks
it. -/
theorem harvest_not_idempotent :
    harvestList (harvestText "href=\"http://a b\"".data false) ≠
      harvestText "href=\"http://a b\"".data false := by decide

/-- C6, amended: the harvest is idempotent on lists of free-text shaped
URLs: when every entry is scheme-prefixed, free of whitespace,
double-quote, angle-bracket and apostrophe characters, carries at least
one character after the scheme and no trailing punctuation, and the list
is duplicate-free, re-running the harvest returns the list unchanged.
URLs captured from href attribute values can contain spaces or quote
characters, and on those idempotence fails. -/
theorem harvest_idempotent_on_clean (l : List Str) (hcl : ∀ u ∈ l, CleanUrl u)
    (hnd : l.Nodup) : harvestList l = l := by
  unfold harvestList
  rw [flatMap_singleton fun u hu => cleanUrl_harvest (hcl u hu)]
  rw [finalizeUrls_eq]
  have hmap : l.map trimRightPunct = l := by
    have h1 : l.map trimRightPunct = l.map id :=
      List.map_congr_left fun u hu => (hcl u hu).2.2
    rw [h1, List.map_id]
  rw [hmap, dedupFirst_of_nodup hnd]

theorem harvest_idempotent_on_clean_witness :
    harvestList ["http://example.com".data, "https://a.b/c".data] =
      ["http://example.com".data, "https://a.b/c".data] :=
  harvest_idempotent_on_clean ["http://example.com".data, "https://a.b/c".data]
    (by decide) (by decide)

/-- C9: in container mode a per-message failure is confined to that
message: with three delimited messages where the second has an unreadable
header block, the loop still produces the records of messages one and
three, in order. -/
theorem container_failure_isolated {J : Type} (D : Decoders)
    (analyze : ParsedEmail → Except Unit J)
    (m1 mC m3 : RawMessage) (p1 p3 : ParsedEmail) (j1 j3 : J)
    (h1 : Parse D m1 = .ok p1) (h3 : Parse D m3 = .ok p3)
    (hC : mC.entity = none)
    (a1 : analyze p1 = .ok j1) (a3 : analyze p3 = .ok j3) :
    processMbox D analyze [.msg m1, .msg mC, .msg m3] =
      [{ messageID := p1.messageID, subject := p1.subject, fromAddrs := p1.fromAddrs,
         toAddrs := p1.toAddrs, judgment := j1 },
       { messageID := p3.messageID, subject := p3.subject, fromAddrs := p3.fromAddrs,
         toAddrs := p3.toAddrs, judgment := j3 }] := by
  have hCparse : Parse D mC = .error () := by
    unfold Parse
    rw [hC]
  simp only [processMbox, h1, h3, hCparse, a1, a3]

theorem container_failure_isolated_witness :
    processMbox failingDecoders analyzeW [.msg msgW1, .msg msgWC, .msg msgW3] =
      [{ messageID := parsedW1.messageID, subject := parsedW1.subject,
         fromAddrs := parsedW1.fromAddrs, toAddrs := parsedW1.toAddrs,
         judgment := "id1@example.com".data },
       { messageID := parsedW3.messageID, subject := parsedW3.subject,
         fromAddrs := parsedW3.fromAddrs, toAddrs := parsedW3.toAddrs,
         judgment := "id3@example.com".data }] :=
  container_failure_isolated failingDecoders analyzeW msgW1 msgWC msgW3
    parsedW1 parsedW3 "id1@example.com".data "id3@example.com".data
    rfl rfl rfl rfl rfl

/-- C10: once the entity read succeeds, Parse fails only when the body
read of a non-multipart text part fails; errors from the From, To, Subject
and Message-ID accessors are discarded and the corresponding fields are
left empty. -/
theorem parse_header_errors_nonfatal (D : Decoders) (m : RawMessage) :
    (Parse D m = .error () ↔
      m.entity = none ∨ ∃ e, m.entity = some e ∧ leafReadFailed e = true) ∧
    (∀ pe, Parse D m = .ok pe →
      (m.fromAddrs = .error () → pe.fromAddrs = []) ∧
      (m.toAddrs = .error () → pe.toAddrs = []) ∧
      (m.subject = .error () → pe.subject = []) ∧
      (m.messageID = .error () → pe.messageID = [])) := by
  constructor
  · cases he : m.entity with
    | none => simp [Parse, he]
    | some e =>
        simp only [Parse, he]
        cases hx : extractBodyAndURLs D e with
        | error u =>
            cases u
            have hl := (extractBodyAndURLs_error_iff D e).mp hx
            simp [hl]
        | ok v =>
            obtain ⟨b, us⟩ := v
            have hl : leafReadFailed e ≠ true := by
              intro hl
              rw [(extractBodyAndURLs_error_iff D e).mpr hl] at hx
              exact absurd hx (by simp)
            simp [hl]
  · intro pe hpe
    unfold Parse at hpe
    cases he : m.entity with
    | none => rw [he] at hpe; exact absurd hpe (by simp)
    | some e =>
        simp only [he] at hpe
        cases hx : extractBodyAndURLs D e with
        | error u => rw [hx] at hpe; exact absurd hpe (by simp)
        | ok v =>
            obtain ⟨b, us⟩ := v
            rw [hx] at hpe
            have hrec := Except.ok.inj hpe
            subst hrec
            refine ⟨?_, ?_, ?_, ?_⟩ <;> intro herr <;> rw [herr] <;> rfl

theorem parse_header_errors_nonfatal_witness :
    Parse failingDecoders headerlessMsg = .ok parsedHeaderless ∧
    parsedHeaderless.fromAddrs = [] ∧ parsedHeaderless.toAddrs = [] ∧
    parsedHeaderless.subject = [] ∧ parsedHeaderless.messageID = [] :=
  ⟨rfl,
   ((parse_header_errors_nonfatal failingDecoders headerlessMsg).2 parsedHeaderless rfl).1 rfl,
   ((parse_header_errors_nonfatal failingDecoders headerlessMsg).2 parsedHeaderless rfl).2.1 rfl,
   ((parse_header_errors_nonfatal failingDecoders headerlessMsg).2 parsedHeaderless rfl).2.2.1 rfl,
   ((parse_header_errors_nonfatal failingDecoders headerlessMsg).2 parsedHeaderless rfl).2.2.2 rfl⟩

end MailAnalyzer
